import Mathlib

/-!
Shallow embedding of `pycomposer/aae_composer.py` (class `AAEComposer`) and of the
legacy demonstration script `test/nn_3_or_multi_layer_builder.py` from the
`accel-brain-code` repository, together with theorems checking the frozen claims
about them.

Modelling conventions:
* numpy arrays become nested lists; `float` times become `ℚ` (the claims only use
  additions of `time_fraction` and equality/order comparisons, on which exact
  arithmetic and IEEE arithmetic agree for the patterns at stake);
* note numbers, programs and velocities become `ℤ`;
* external randomness (`np.random.normal` followed by `int(...)`) is an oracle
  stream `vel : ℕ → ℤ` consumed one value per emitted note;
* classes of the surrounding frameworks (`pygan`, `pydbm`) and the `pycomposer`
  modules not present in the sources (`MidiController`, `BarTrueSampler`,
  `BarNoiseSampler`) are opaque collaborators: they are modelled as records of the
  constructor arguments the composer passes to them, with behaviour supplied by
  oracle fields.
-/

/-- A 2-D slice `generated_arr[batch, program_key]` of the drawn numpy array:
outer index is `seq`, inner index is the pitch cell. -/
abbrev Mat : Type := List (List ℚ)

/-- The full 4-D drawn array `generated_arr` (batch, program_key, seq, pitch). -/
abbrev Arr4 : Type := List (List Mat)

/-- One row of `key_df` in `AAEComposer.compose`: the columns `seq`, `pitch`, `p`
of `pd.DataFrame(np.c_[seq_arr, pitch_arr, generated_arr[...]], columns=["seq", "pitch", "p"])`. -/
structure KeyRow where
  seq : ℕ
  pitch : ℕ
  p : ℚ
deriving DecidableEq, Repr

/-- Positions of cells equal to `1` in one `seq` row, scanning pitch cells left to
right starting at pitch index `i` (the inner part of `np.where(generated_arr[batch, program_key] == 1)`). -/
def rowKeyRowsFrom (s i : ℕ) : List ℚ → List KeyRow
  | [] => []
  | v :: rest =>
    if v = 1 then ⟨s, i, v⟩ :: rowKeyRowsFrom s (i + 1) rest
    else rowKeyRowsFrom s (i + 1) rest

/-- Positions of cells equal to `1` in a 2-D slice, in numpy row-major order
(`seq` ascending, pitch ascending inside a row), starting at seq index `s`. -/
def keyRowsFrom (s : ℕ) : Mat → List KeyRow
  | [] => []
  | row :: rest => rowKeyRowsFrom s 0 row ++ keyRowsFrom (s + 1) rest

/-- All rows of `key_df` for one `(batch, program_key)` slice: the output of
`np.where(generated_arr[batch, program_key] == 1)` paired with the cell values
(all of which are `1`). -/
def keyRows (mat : Mat) : List KeyRow := keyRowsFrom 0 mat

/-- Sort key of `key_df.sort_values(by=["p"], ascending=False)`: row `a` may come
before row `b` when `b.p ≤ a.p`. -/
def pDesc (a b : KeyRow) : Prop := b.p ≤ a.p

instance : DecidableRel pDesc := fun a b => inferInstanceAs (Decidable (b.p ≤ a.p))

/-- `key_df.sort_values(by=["p"], ascending=False)` (modelled as a stable sort). -/
def sortKeyDesc (l : List KeyRow) : List KeyRow := List.insertionSort pDesc l

/-- The loop `for seq in range(generated_arr.shape[2]): df = key_df[key_df.seq == seq]`,
concatenating the selected rows: `count` further values of `seq` are visited,
the next one being `sq`. -/
def seqFilterLoop (key : List KeyRow) : ℕ → ℕ → List KeyRow
  | _, 0 => []
  | sq, count + 1 =>
    key.filter (fun r => r.seq = sq) ++ seqFilterLoop key (sq + 1) count

/-- The rows of `key_df` in the order the two inner loops of `compose` visit them
for one `(batch, program_key)` slice: sorted by `p` descending, then regrouped by
`seq` over `range(generated_arr.shape[2])`. -/
def blockRows (mat : Mat) : List KeyRow := seqFilterLoop (sortKeyDesc (keyRows mat)) 0 mat.length

/-- One generated note tuple `(program, start, end, pitch, velocity)` appended to
`generated_list` in `AAEComposer.compose`. -/
structure Note where
  program : ℤ
  start : ℚ
  end_ : ℚ
  pitch : ℤ
  velocity : ℤ
deriving DecidableEq, Repr

/-- The innermost emission of `compose`: for each selected row of `key_df`
(in order) append `(program, start, end, int(pitch + min_pitch), int(np.random.normal(...)))`;
`c` is the index of the next velocity sample drawn from the oracle `vel`. -/
def emitNotes (prog : ℤ) (s e : ℚ) (minp : ℤ) (vel : ℕ → ℤ) : List KeyRow → ℕ → List Note
  | [], _ => []
  | r :: rest, c => ⟨prog, s, e, (r.pitch : ℤ) + minp, vel c⟩ :: emitNotes prog s e minp vel rest (c + 1)

/-- Python `enumerate` over the `program_key` axis (the iteration
`for program_key in range(generated_arr.shape[1])` paired with the slices). -/
def pyEnum (i : ℕ) : List Mat → List (ℕ × Mat)
  | [] => []
  | m :: r => (i, m) :: pyEnum (i + 1) r

/-- The `for program_key in range(generated_arr.shape[1])` loop of `compose` for
one batch: emits the notes of each `(batch, program_key)` slice and performs
`start += self.__time_fraction; end += self.__time_fraction` once per slice.
State threaded: `start`, `end`, and the velocity-oracle index. -/
def progLoop (progs : List ℤ) (minp : ℤ) (tf : ℚ) (vel : ℕ → ℤ) :
    List (ℕ × Mat) → ℚ → ℚ → ℕ → List Note × ℚ × ℚ × ℕ
  | [], s, e, c => ([], s, e, c)
  | (pk, mat) :: rest, s, e, c =>
    let notes := emitNotes (progs.getD pk 0) s e minp vel (blockRows mat) c
    let t := progLoop progs minp tf vel rest (s + tf) (e + tf) (c + (blockRows mat).length)
    (notes ++ t.1, t.2)

/-- The `for batch in range(generated_arr.shape[0])` loop of `compose`. -/
def batchLoop (progs : List ℤ) (minp : ℤ) (tf : ℚ) (vel : ℕ → ℤ) :
    Arr4 → ℚ → ℚ → ℕ → List Note × ℚ × ℚ × ℕ
  | [], s, e, c => ([], s, e, c)
  | blk :: rest, s, e, c =>
    let t1 := progLoop progs minp tf vel (pyEnum 0 blk) s e c
    let t2 := batchLoop progs minp tf vel rest t1.2.1 t1.2.2.1 t1.2.2.2
    (t1.1 ++ t2.1, t2.2)

/-- `generated_list` as built by the nested loops of `AAEComposer.compose`,
starting from `start = 0`, `end = self.__time_fraction`. -/
def generatedList (tf : ℚ) (minp : ℤ) (progs : List ℤ) (vel : ℕ → ℤ) (arr : Arr4) : List Note :=
  (batchLoop progs minp tf vel arr 0 tf 0).1

/-- All `(program_key, slice)` blocks of the drawn array in processing order. -/
def flatBlocks (arr : Arr4) : List (ℕ × Mat) := (arr.map (pyEnum 0)).flatten

/-- Specification form of the emission loop: the block at flat position `k`
(counting all `(batch, program_key)` blocks processed before it) emits one note
per cell equal to `1`, in row-major cell order, with
`start = time_fraction * k` and `end = start + time_fraction`. -/
def specGo (progs : List ℤ) (minp : ℤ) (tf : ℚ) (vel : ℕ → ℤ) :
    List (ℕ × Mat) → ℕ → ℕ → List Note
  | [], _, _ => []
  | (pk, mat) :: rest, k, c =>
    emitNotes (progs.getD pk 0) (tf * k) (tf * k + tf) minp vel (keyRows mat) c
      ++ specGo progs minp tf vel rest (k + 1) (c + (keyRows mat).length)

/-- Specification form of `generated_list`: one note per array cell equal to `1`,
with block-determined times. -/
def specGenList (tf : ℚ) (minp : ℤ) (progs : List ℤ) (vel : ℕ → ℤ) (arr : Arr4) : List Note :=
  specGo progs minp tf vel (flatBlocks arr) 0 0

/-- Every pitch row of the drawn array has length at most `d` (for a trained
composer, `draw()` returns piano rolls whose pitch axis has length
`max_pitch - min_pitch`). -/
def pitchDimLe (arr : Arr4) (d : ℕ) : Prop :=
  ∀ blk ∈ arr, ∀ mat ∈ blk, ∀ row ∈ mat, row.length ≤ d

-- Basic facts about the key rows.

theorem rowKeyRowsFrom_mem {s i : ℕ} {row : List ℚ} {r : KeyRow}
    (h : r ∈ rowKeyRowsFrom s i row) : r.seq = s ∧ r.p = 1 ∧ i ≤ r.pitch ∧ r.pitch < i + row.length := by
  induction row generalizing i with
  | nil => simp [rowKeyRowsFrom] at h
  | cons v rest ih =>
    simp only [rowKeyRowsFrom] at h
    by_cases hv : v = 1
    · rw [if_pos hv] at h
      rcases List.mem_cons.mp h with h | h
      · subst h
        exact ⟨rfl, hv, Nat.le_refl _, by simp only [List.length_cons]; omega⟩
      · rcases ih h with ⟨h1, h2, h3, h4⟩
        refine ⟨h1, h2, by omega, ?_⟩
        simp only [List.length_cons]
        omega
    · rw [if_neg hv] at h
      rcases ih h with ⟨h1, h2, h3, h4⟩
      refine ⟨h1, h2, by omega, ?_⟩
      simp only [List.length_cons]
      omega

theorem keyRowsFrom_mem {s : ℕ} {mat : Mat} {r : KeyRow}
    (h : r ∈ keyRowsFrom s mat) : s ≤ r.seq ∧ r.p = 1 ∧ ∃ row ∈ mat, r.pitch < row.length := by
  induction mat generalizing s with
  | nil => simp [keyRowsFrom] at h
  | cons row rest ih =>
    simp only [keyRowsFrom, List.mem_append] at h
    rcases h with h | h
    · rcases rowKeyRowsFrom_mem h with ⟨h1, h2, _, h4⟩
      exact ⟨le_of_eq h1.symm, h2, row, List.mem_cons_self _ _, by simpa using h4⟩
    · rcases ih h with ⟨h1, h2, row0, hrow0, h4⟩
      exact ⟨Nat.le_of_succ_le h1, h2, row0, List.mem_cons_of_mem _ hrow0, h4⟩

/-- All `p` values in `key_df` are `1`, so the sort by `p` descending leaves the
rows in place. -/
theorem sortKeyDesc_keyRows (mat : Mat) : sortKeyDesc (keyRows mat) = keyRows mat := by
  apply List.Sorted.insertionSort_eq
  apply List.pairwise_of_forall_mem_list
  intro a ha b hb
  have hb1 := (keyRowsFrom_mem hb).2.1
  have ha1 := (keyRowsFrom_mem ha).2.1
  unfold pDesc
  rw [ha1, hb1]

theorem filter_seq_of_all_eq {l : List KeyRow} {s : ℕ} (h : ∀ r ∈ l, r.seq = s) :
    l.filter (fun r => r.seq = s) = l := by
  apply List.filter_eq_self.mpr
  intro r hr
  simpa using h r hr

theorem filter_seq_of_all_ne {l : List KeyRow} {sq : ℕ} (h : ∀ r ∈ l, r.seq ≠ sq) :
    l.filter (fun r => r.seq = sq) = [] := by
  apply List.filter_eq_nil_iff.mpr
  intro r hr
  simpa using h r hr

theorem seqFilterLoop_append_of_lt {a b : List KeyRow} {sq : ℕ}
    (h : ∀ r ∈ a, r.seq < sq) :
    ∀ n, seqFilterLoop (a ++ b) sq n = seqFilterLoop b sq n := by
  intro n
  induction n generalizing sq with
  | zero => rfl
  | succ n ih =>
    simp only [seqFilterLoop, List.filter_append]
    rw [filter_seq_of_all_ne (fun r hr => Nat.ne_of_lt (h r hr)),
      ih (fun r hr => Nat.lt_succ_of_lt (h r hr))]
    simp

/-- Regrouping by `seq` over `range(shape[2])` visits every row of `key_df`
exactly once and restores the row-major order. -/
theorem seqFilterLoop_keyRowsFrom (mat : Mat) :
    ∀ s, seqFilterLoop (keyRowsFrom s mat) s mat.length = keyRowsFrom s mat := by
  induction mat with
  | nil => intro s; rfl
  | cons row rest ih =>
    intro s
    simp only [keyRowsFrom, List.length_cons, seqFilterLoop, List.filter_append]
    have hrow : ∀ r ∈ rowKeyRowsFrom s 0 row, r.seq = s :=
      fun r hr => (rowKeyRowsFrom_mem hr).1
    have hrest : ∀ r ∈ keyRowsFrom (s + 1) rest, r.seq ≠ s := by
      intro r hr
      have := (keyRowsFrom_mem hr).1
      omega
    rw [filter_seq_of_all_eq hrow, filter_seq_of_all_ne hrest,
      seqFilterLoop_append_of_lt (fun r hr => by rw [(rowKeyRowsFrom_mem hr).1]; omega),
      ih (s + 1)]
    simp

/-- The two inner loops of `compose` visit exactly the cells equal to `1`, in
row-major order. -/
theorem blockRows_eq_keyRows (mat : Mat) : blockRows mat = keyRows mat := by
  unfold blockRows
  rw [sortKeyDesc_keyRows]
  exact seqFilterLoop_keyRowsFrom mat 0

theorem emitNotes_length (prog : ℤ) (s e : ℚ) (minp : ℤ) (vel : ℕ → ℤ) :
    ∀ (key : List KeyRow) (c : ℕ), (emitNotes prog s e minp vel key c).length = key.length := by
  intro key
  induction key with
  | nil => intro c; rfl
  | cons r rest ih => intro c; simp [emitNotes, ih]

/-- Total number of rows of `key_df` over a list of blocks. -/
def sumCounts (blocks : List (ℕ × Mat)) : ℕ :=
  (blocks.map (fun pm => (keyRows pm.2).length)).sum

theorem progLoop_eq_specGo (progs : List ℤ) (minp : ℤ) (tf : ℚ) (vel : ℕ → ℤ) :
    ∀ (blocks : List (ℕ × Mat)) (k c : ℕ),
      progLoop progs minp tf vel blocks (tf * k) (tf * k + tf) c =
        (specGo progs minp tf vel blocks k c,
          tf * (k + blocks.length), tf * (k + blocks.length) + tf, c + sumCounts blocks) := by
  intro blocks
  induction blocks with
  | nil =>
    intro k c
    simp [progLoop, specGo, sumCounts]
  | cons pm rest ih =>
    intro k c
    obtain ⟨pk, mat⟩ := pm
    simp only [progLoop, specGo]
    rw [blockRows_eq_keyRows]
    have hs : tf * (k : ℚ) + tf = tf * ((k + 1 : ℕ) : ℚ) := by
      push_cast
      ring
    rw [hs, ih (k + 1) (c + (keyRows mat).length)]
    dsimp only
    simp only [Prod.mk.injEq]
    refine ⟨trivial, ?_, ?_, ?_⟩
    · push_cast [List.length_cons]
      ring
    · push_cast [List.length_cons]
      ring
    · have hsum : sumCounts ((pk, mat) :: rest) = (keyRows mat).length + sumCounts rest := by
        simp [sumCounts]
      omega

theorem specGo_append (progs : List ℤ) (minp : ℤ) (tf : ℚ) (vel : ℕ → ℤ) :
    ∀ (a b : List (ℕ × Mat)) (k c : ℕ),
      specGo progs minp tf vel (a ++ b) k c =
        specGo progs minp tf vel a k c ++ specGo progs minp tf vel b (k + a.length) (c + sumCounts a) := by
  intro a
  induction a with
  | nil => intro b k c; simp [specGo, sumCounts]
  | cons pm rest ih =>
    intro b k c
    obtain ⟨pk, mat⟩ := pm
    have hsum : sumCounts ((pk, mat) :: rest) = (keyRows mat).length + sumCounts rest := by
      simp [sumCounts]
    simp only [List.cons_append, List.append_eq, specGo]
    rw [ih, List.append_assoc]
    have h1 : (k + 1 + rest.length : ℕ) = (k + ((pk, mat) :: rest).length : ℕ) := by
      simp only [List.length_cons]
      omega
    have h2 : (c + (keyRows mat).length + sumCounts rest : ℕ)
        = (c + sumCounts ((pk, mat) :: rest) : ℕ) := by
      rw [hsum]
      omega
    rw [h1, h2]

theorem batchLoop_eq_specGo (progs : List ℤ) (minp : ℤ) (tf : ℚ) (vel : ℕ → ℤ) :
    ∀ (batches : Arr4) (k c : ℕ),
      batchLoop progs minp tf vel batches (tf * k) (tf * k + tf) c =
        (specGo progs minp tf vel (flatBlocks batches) k c,
          tf * (k + (flatBlocks batches).length), tf * (k + (flatBlocks batches).length) + tf,
          c + sumCounts (flatBlocks batches)) := by
  intro batches
  induction batches with
  | nil =>
    intro k c
    simp [batchLoop, flatBlocks, specGo, sumCounts]
  | cons blk rest ih =>
    intro k c
    have hflat : flatBlocks (blk :: rest) = pyEnum 0 blk ++ flatBlocks rest := by
      simp [flatBlocks]
    simp only [batchLoop]
    rw [progLoop_eq_specGo]
    dsimp only
    have hcast : tf * ((k : ℚ) + ((pyEnum 0 blk).length : ℚ))
        = tf * (((k + (pyEnum 0 blk).length : ℕ)) : ℚ) := by
      push_cast
      ring
    rw [hcast, ih (k + (pyEnum 0 blk).length) (c + sumCounts (pyEnum 0 blk))]
    rw [hflat, specGo_append]
    have h2 : sumCounts (pyEnum 0 blk ++ flatBlocks rest)
        = sumCounts (pyEnum 0 blk) + sumCounts (flatBlocks rest) := by
      simp [sumCounts]
    simp only [Prod.mk.injEq]
    refine ⟨trivial, ?_, ?_, ?_⟩
    · push_cast [List.length_append]
      ring
    · push_cast [List.length_append]
      ring
    · omega

/-- The loop of `compose` emits exactly the specification list. -/
theorem generatedList_eq_specGenList (tf : ℚ) (minp : ℤ) (progs : List ℤ) (vel : ℕ → ℤ)
    (arr : Arr4) : generatedList tf minp progs vel arr = specGenList tf minp progs vel arr := by
  unfold generatedList specGenList
  have h := batchLoop_eq_specGo progs minp tf vel arr 0 0
  simp only [Nat.cast_zero, mul_zero, zero_add] at h
  rw [h]

theorem emitNotes_mem {prog : ℤ} {s e : ℚ} {minp : ℤ} {vel : ℕ → ℤ}
    {key : List KeyRow} {c : ℕ} {n : Note} (h : n ∈ emitNotes prog s e minp vel key c) :
    n.start = s ∧ n.end_ = e ∧ n.program = prog ∧ ∃ r ∈ key, n.pitch = (r.pitch : ℤ) + minp := by
  induction key generalizing c with
  | nil => simp [emitNotes] at h
  | cons r rest ih =>
    rcases List.mem_cons.mp h with h | h
    · subst h
      exact ⟨rfl, rfl, rfl, r, List.mem_cons_self _ _, rfl⟩
    · rcases ih h with ⟨h1, h2, h3, r0, hr0, h4⟩
      exact ⟨h1, h2, h3, r0, List.mem_cons_of_mem _ hr0, h4⟩

theorem specGo_mem {progs : List ℤ} {minp : ℤ} {tf : ℚ} {vel : ℕ → ℤ}
    {blocks : List (ℕ × Mat)} {k c : ℕ} {n : Note} (h : n ∈ specGo progs minp tf vel blocks k c) :
    ∃ j, k ≤ j ∧ n.start = tf * j ∧ n.end_ = tf * j + tf ∧
      ∃ pm ∈ blocks, ∃ r ∈ keyRows pm.2, n.pitch = (r.pitch : ℤ) + minp := by
  induction blocks generalizing k c with
  | nil => simp [specGo] at h
  | cons pm rest ih =>
    obtain ⟨pk, mat⟩ := pm
    simp only [specGo, List.mem_append] at h
    rcases h with h | h
    · rcases emitNotes_mem h with ⟨h1, h2, _, r, hr, h4⟩
      exact ⟨k, le_refl _, h1, h2, (pk, mat), List.mem_cons_self _ _, r, hr, h4⟩
    · rcases ih h with ⟨j, hj, h1, h2, pm0, hpm0, r, hr, h4⟩
      exact ⟨j, by omega, h1, h2, pm0, List.mem_cons_of_mem _ hpm0, r, hr, h4⟩

theorem pyEnum_mem {i : ℕ} {l : List Mat} {pm : ℕ × Mat} (h : pm ∈ pyEnum i l) : pm.2 ∈ l := by
  induction l generalizing i with
  | nil => simp [pyEnum] at h
  | cons m r ih =>
    rcases List.mem_cons.mp h with h | h
    · subst h
      exact List.mem_cons_self _ _
    · exact List.mem_cons_of_mem _ (ih h)

theorem flatBlocks_mem {arr : Arr4} {pm : ℕ × Mat} (h : pm ∈ flatBlocks arr) :
    ∃ blk ∈ arr, pm.2 ∈ blk := by
  unfold flatBlocks at h
  rcases List.mem_flatten.mp h with ⟨l, hl, hpm⟩
  rcases List.mem_map.mp hl with ⟨blk, hblk, rfl⟩
  exact ⟨blk, hblk, pyEnum_mem hpm⟩

/-- Every note of `generated_list` has its pitch inside `[min_pitch, max_pitch)`
as soon as the pitch axis of the drawn array is at most `max_pitch - min_pitch`
cells long. -/
theorem generatedList_pitch_range {tf : ℚ} {minp maxp : ℤ} {progs : List ℤ} {vel : ℕ → ℤ}
    {arr : Arr4} (hdim : pitchDimLe arr (maxp - minp).toNat) :
    ∀ n ∈ generatedList tf minp progs vel arr, minp ≤ n.pitch ∧ n.pitch < maxp := by
  intro n hn
  rw [generatedList_eq_specGenList] at hn
  rcases specGo_mem hn with ⟨j, _, _, _, pm, hpm, r, hr, hpitch⟩
  rcases flatBlocks_mem hpm with ⟨blk, hblk, hmat⟩
  rcases keyRowsFrom_mem hr with ⟨_, _, row, hrow, hlt⟩
  have hle := hdim blk hblk pm.2 hmat row hrow
  have hlt2 : r.pitch < (maxp - minp).toNat := lt_of_lt_of_le hlt hle
  constructor
  · rw [hpitch]
    have : (0 : ℤ) ≤ (r.pitch : ℤ) := Int.ofNat_nonneg _
    omega
  · rw [hpitch]
    omega

-- Post-processing of `generated_midi_df` in `AAEComposer.compose` before saving.

/-- Sort key of `sort_values(by=["start", "end"])`: lexicographic order on
`(start, end)`. -/
def noteLe (a b : Note) : Prop := a.start < b.start ∨ (a.start = b.start ∧ a.end_ ≤ b.end_)

instance : DecidableRel noteLe := fun a b =>
  inferInstanceAs (Decidable (a.start < b.start ∨ (a.start = b.start ∧ a.end_ ≤ b.end_)))

instance : IsTotal Note noteLe where
  total a b := by
    unfold noteLe
    rcases lt_trichotomy a.start b.start with h | h | h
    · exact Or.inl (Or.inl h)
    · rcases le_total a.end_ b.end_ with he | he
      · exact Or.inl (Or.inr ⟨h, he⟩)
      · exact Or.inr (Or.inr ⟨h.symm, he⟩)
    · exact Or.inr (Or.inl h)

instance : IsTrans Note noteLe where
  trans a b c hab hbc := by
    unfold noteLe at hab hbc ⊢
    rcases hab with h1 | ⟨h1, h1e⟩ <;> rcases hbc with h2 | ⟨h2, h2e⟩
    · exact Or.inl (lt_trans h1 h2)
    · exact Or.inl (h2 ▸ h1)
    · exact Or.inl (h1 ▸ h2)
    · exact Or.inr ⟨h1.trans h2, le_trans h1e h2e⟩

/-- `df.sort_values(by=["start", "end"])` (modelled as a stable sort). -/
def sortStartEnd (l : List Note) : List Note := List.insertionSort noteLe l

/-- A row of a per-pitch DataFrame after the two `shift(-1)` columns
`next_start` and `next_end` have been added (`None` models the `NaN` of the last
row). -/
structure NoteExt where
  note : Note
  next_start : Option ℚ
  next_end : Option ℚ
deriving DecidableEq, Repr

/-- `df["next_start"] = df.start.shift(-1); df["next_end"] = df.end.shift(-1)`. -/
def withShift : List Note → List NoteExt
  | [] => []
  | [a] => [⟨a, none, none⟩]
  | a :: b :: r => ⟨a, some b.start, some b.end_⟩ :: withShift (b :: r)

/-- `df.loc[df.end == df.next_start, "end"] = df.loc[df.end == df.next_start, "next_end"]`:
a simultaneous masked assignment computed from the original columns. -/
def maskAssign (l : List NoteExt) : List NoteExt :=
  l.map fun x =>
    if some x.note.end_ = x.next_start then
      { x with note := { x.note with end_ := x.next_end.getD x.note.end_ } }
    else x

/-- `df.drop_duplicates(["end"])`: keep the first row carrying each `end` value;
`seen` is the set of `end` values already kept. -/
def dropDupEnd (seen : List ℚ) : List Note → List Note
  | [] => []
  | n :: rest =>
    if n.end_ ∈ seen then dropDupEnd seen rest
    else n :: dropDupEnd (n.end_ :: seen) rest

/-- `generated_midi_df.pitch.drop_duplicates()`: the distinct pitch values in
order of first occurrence. -/
def firstDedup : List ℤ → List ℤ
  | [] => []
  | a :: l => a :: firstDedup (l.filter (fun b => b ≠ a))
termination_by l => l.length
decreasing_by
  simp only [List.length_cons]
  exact Nat.lt_succ_of_le (List.length_filter_le _ _)

/-- The body of the per-pitch loop of `compose`, exactly as the pandas code runs
it: select the pitch group, sort it by `(start, end)`, add the shifted columns,
perform the masked `end` assignment, drop duplicate `end` values.  (The helper
columns `next_start`/`next_end` stay in the saved DataFrame but are dropped here
because nothing reads them afterwards.) -/
def pandasGroup (l : List Note) (p : ℤ) : List Note :=
  dropDupEnd [] ((maskAssign (withShift (sortStartEnd (l.filter (fun n => n.pitch = p))))).map (fun x => x.note))

/-- `generated_midi_df` as passed to `MidiController.save`: per-pitch processed
groups concatenated in order of first pitch occurrence, then sorted by
`(start, end)`. -/
def postProcess (l : List Note) : List Note :=
  sortStartEnd (((firstDedup (l.map (fun n => n.pitch))).map (fun p => pandasGroup l p)).flatten)

/-- Specification form of the per-group `end` extension: a note whose `end`
equals the immediately following note's `start` gets that note's `end`
(computed simultaneously from the original values). -/
def extendEnds : List Note → List Note
  | [] => []
  | [a] => [a]
  | a :: b :: r =>
    (if a.end_ = b.start then { a with end_ := b.end_ } else a) :: extendEnds (b :: r)

/-- Specification form of the per-pitch group processing. -/
def specGroup (l : List Note) (p : ℤ) : List Note :=
  dropDupEnd [] (extendEnds (sortStartEnd (l.filter (fun n => n.pitch = p))))

/-- Specification form of the saved DataFrame. -/
def specPostProcess (l : List Note) : List Note :=
  sortStartEnd (((firstDedup (l.map (fun n => n.pitch))).map (fun p => specGroup l p)).flatten)

/-- The shift/mask implementation of the `end` extension agrees with its direct
recursive description. -/
theorem maskAssign_withShift (l : List Note) :
    (maskAssign (withShift l)).map (fun x => x.note) = extendEnds l := by
  induction l with
  | nil => rfl
  | cons a rest ih =>
    cases rest with
    | nil => simp [withShift, maskAssign, extendEnds]
    | cons b r =>
      simp only [withShift, maskAssign, List.map_cons, extendEnds] at ih ⊢
      rw [← ih]
      by_cases h : a.end_ = b.start
      · simp [h]
      · simp [h]

theorem pandasGroup_eq_specGroup (l : List Note) (p : ℤ) :
    pandasGroup l p = specGroup l p := by
  unfold pandasGroup specGroup
  rw [maskAssign_withShift]

/-- The source post-processing and its specification form coincide, and the
result is sorted by `(start, end)`. -/
theorem postProcess_eq_specPostProcess (l : List Note) :
    postProcess l = specPostProcess l := by
  unfold postProcess specPostProcess
  simp only [pandasGroup_eq_specGroup]

theorem postProcess_sorted (l : List Note) : List.Sorted noteLe (postProcess l) :=
  List.sorted_insertionSort noteLe _

-- The `AAEComposer` object model.

/-- A MIDI DataFrame produced by `MidiController().extract(midi_path)`.
Modelled from the spec: `MidiController` is not among the sources; the spec and
the uses in `compose` (`df.velocity.mean()`, `df.velocity.std()`) show `extract`
returns a pandas DataFrame whose columns include `program` and `velocity`. -/
structure MidiDF where
  program : List ℤ
  velocity : List ℚ
deriving DecidableEq, Repr

/-- A Python exception raised during a modelled call. -/
inductive PyErr where
  | typeError (msg : String)
deriving DecidableEq, Repr

/-- A Python value as far as hashability in `set(...)` is concerned: an `int`
scalar, or a pandas `Series` (a DataFrame column), which pandas makes
unhashable. -/
inductive PyVal where
  | int (n : ℤ)
  | series (l : List ℤ)
deriving DecidableEq, Repr

/-- Whether `hash(v)` succeeds: pandas `Series.__hash__` raises `TypeError`. -/
def PyVal.hashable : PyVal → Bool
  | .int _ => true
  | .series _ => false

/-- Python `set(iterable)`: hashes the elements one by one, raising `TypeError`
at the first unhashable one; on success the distinct elements remain. -/
def pySet : List PyVal → Except PyErr (List PyVal)
  | [] => .ok []
  | v :: rest =>
    if v.hashable then
      match pySet rest with
      | .error e => .error e
      | .ok s => .ok (if v ∈ s then s else v :: s)
    else .error (.typeError "Series objects are mutable, thus they cannot be hashed")

/-- Constructor arguments of `BarTrueSampler(...)` in `__init__`.
Modelled from the spec: the class itself is repository code outside the sources
("wiring samplers"); only the arguments the composer passes are recorded. -/
structure BarTrueSamplerM where
  midi_df_list : List MidiDF
  batch_size : ℕ
  seq_len : ℕ
  time_fraction : ℚ
  min_pitch : ℤ
  max_pitch : ℤ
  conditional_flag : Bool
deriving DecidableEq, Repr

/-- A `TrueSampler`: either the `BarTrueSampler` built by `__init__`, or an
opaque caller-supplied sampler. -/
inductive TrueSamplerM where
  | bar (b : BarTrueSamplerM)
  | external (tag : ℕ)
deriving DecidableEq, Repr

/-- Constructor arguments of `BarNoiseSampler(...)` plus the `channel` and
`program_list` attributes the class computes internally.
Modelled from the spec: the class is repository code outside the sources; its
computed attributes are filled in by oracles. -/
structure BarNoiseSamplerM where
  midi_df_list : List MidiDF
  batch_size : ℕ
  seq_len : ℕ
  time_fraction : ℚ
  min_pitch : ℤ
  max_pitch : ℤ
  channel : ℕ
  program_list : List ℤ
deriving DecidableEq, Repr

/-- A `NoiseSampler`: the default `BarNoiseSampler`, or an opaque
caller-supplied sampler exposing `channel` and `program_list`. -/
inductive NoiseSamplerM where
  | bar (b : BarNoiseSamplerM)
  | external (program_list : List ℤ) (channel : ℕ) (tag : ℕ)
deriving DecidableEq, Repr

/-- The `channel` attribute of a noise sampler. -/
def NoiseSamplerM.channel : NoiseSamplerM → ℕ
  | .bar b => b.channel
  | .external _ ch _ => ch

/-- The `program_list` attribute of a noise sampler (read by `compose`). -/
def NoiseSamplerM.program_list : NoiseSamplerM → List ℤ
  | .bar b => b.program_list
  | .external pl _ _ => pl

/-- A `GenerativeModel` (`ConvolutionalAutoEncoder` of `pygan`): the
constructor arguments `__init__` passes, the mutable `noise_sampler` attribute,
and the externally-determined behaviour of `draw()` as an oracle stream indexed
by the number of previous `draw()` calls. -/
structure GenModelM where
  noise_sampler : Option NoiseSamplerM
  batch_size : ℕ
  learning_rate : ℚ
  channel : ℕ
  drawCount : ℕ
  drawResults : ℕ → Arr4
  tag : ℕ

/-- A `DiscriminativeModel` (`SeqCNNModel` of `pygan`): the constructor
arguments that the claims mention (`hidden_dim` is the one handed to
`CNNOutputGraph`). -/
structure DiscModelM where
  batch_size : ℕ
  hidden_dim : ℤ
  channel : ℕ
  learning_rate : ℚ
  tag : ℕ
deriving DecidableEq, Repr

/-- A `GANsValueFunction`: the default `MiniMax()` or an opaque supplied one. -/
inductive GansValueFunctionM where
  | miniMax
  | external (tag : ℕ)
deriving DecidableEq, Repr

/-- The `AdversarialAutoEncoders` GANs framework object: the value function it
was built with, plus its externally-determined `train` and
`extract_logs_tuple` behaviour as oracle fields. -/
structure GANM where
  gans_value_function : GansValueFunctionM
  train : TrueSamplerM → GenModelM → DiscModelM → ℕ → ℕ → GenModelM × DiscModelM
  extract_logs_tuple : List ℚ × List ℚ × List ℚ

/-- Behaviour of the external collaborators (`pycomposer` classes outside the
sources and the `pygan`/`pydbm` frameworks), supplied as oracles. -/
structure ExternalOracles where
  barNoiseChannel : List MidiDF → ℕ
  barNoiseProgramList : List MidiDF → List ℤ
  defaultGenDraw : ℕ → Arr4
  aaeTrain : TrueSamplerM → GenModelM → DiscModelM → ℕ → ℕ → GenModelM × DiscModelM
  aaeLogs : List ℚ × List ℚ × List ℚ

/-- The state of an `AAEComposer` instance: its private attributes as assigned
at the end of `__init__`. -/
structure AAEComposer where
  midi_df_list : List MidiDF
  noise_sampler : NoiseSamplerM
  true_sampler : TrueSamplerM
  generative_model : GenModelM
  discriminative_model : DiscModelM
  GAN : GANM
  time_fraction : ℚ
  min_pitch : ℤ
  max_pitch : ℤ

/-- The part of `__init__` after the noise-sampler branch: default construction
of the generative model, the overwrite `generative_model.noise_sampler = noise_sampler`,
default construction of the discriminative model (with
`hidden_dim = channel * seq_len * dim` when both are unset), the default
`MiniMax()` value function, the `AdversarialAutoEncoders` object, and the field
assignments. -/
def initRest (oracles : ExternalOracles) (midi_df_list : List MidiDF)
    (batch_size seq_len : ℕ) (time_fraction : ℚ) (min_pitch max_pitch : ℤ)
    (learning_rate : ℚ) (hidden_dim : Option ℤ)
    (ts : TrueSamplerM) (ns : NoiseSamplerM) (channel : ℕ)
    (generative_model : Option GenModelM) (discriminative_model : Option DiscModelM)
    (gans_value_function : Option GansValueFunctionM) : AAEComposer :=
  let dim := max_pitch - min_pitch
  let gm0 : GenModelM :=
    match generative_model with
    | none =>
      { noise_sampler := none, batch_size := batch_size, learning_rate := learning_rate,
        channel := channel, drawCount := 0, drawResults := oracles.defaultGenDraw, tag := 0 }
    | some g => g
  let gm : GenModelM := { gm0 with noise_sampler := some ns }
  let dm : DiscModelM :=
    match discriminative_model with
    | none =>
      let hd : ℤ :=
        match hidden_dim with
        | none => (channel : ℤ) * (seq_len : ℤ) * dim
        | some h => h
      { batch_size := batch_size, hidden_dim := hd, channel := channel,
        learning_rate := learning_rate, tag := 0 }
    | some d => d
  let gvf : GansValueFunctionM :=
    match gans_value_function with
    | none => GansValueFunctionM.miniMax
    | some g => g
  { midi_df_list := midi_df_list,
    noise_sampler := ns,
    true_sampler := ts,
    generative_model := gm,
    discriminative_model := dm,
    GAN := { gans_value_function := gvf, train := oracles.aaeTrain,
             extract_logs_tuple := oracles.aaeLogs },
    time_fraction := time_fraction,
    min_pitch := min_pitch,
    max_pitch := max_pitch }

/-- `AAEComposer.__init__`.  `midi_df_list` stands for
`[MidiController().extract(p) for p in midi_path_list]` (extraction is external
input).  When `noise_sampler` is supplied, the code builds
`program_list = [self.__midi_df_list[i].program for i in ...]` — a list of
pandas Series — and calls `set(program_list)`, which hashes each Series. -/
def AAEComposer.init (oracles : ExternalOracles) (midi_df_list : List MidiDF)
    (batch_size seq_len : ℕ) (time_fraction : ℚ) (min_pitch max_pitch : ℤ)
    (learning_rate : ℚ) (hidden_dim : Option ℤ)
    (true_sampler : Option TrueSamplerM) (noise_sampler : Option NoiseSamplerM)
    (generative_model : Option GenModelM) (discriminative_model : Option DiscModelM)
    (gans_value_function : Option GansValueFunctionM) : Except PyErr AAEComposer :=
  let ts : TrueSamplerM :=
    match true_sampler with
    | none =>
      TrueSamplerM.bar
        { midi_df_list := midi_df_list, batch_size := batch_size, seq_len := seq_len,
          time_fraction := time_fraction, min_pitch := min_pitch, max_pitch := max_pitch,
          conditional_flag := false }
    | some t => t
  match noise_sampler with
  | none =>
    let ns : NoiseSamplerM :=
      NoiseSamplerM.bar
        { midi_df_list := midi_df_list, batch_size := batch_size, seq_len := seq_len,
          time_fraction := time_fraction, min_pitch := min_pitch, max_pitch := max_pitch,
          channel := oracles.barNoiseChannel midi_df_list,
          program_list := oracles.barNoiseProgramList midi_df_list }
    .ok (initRest oracles midi_df_list batch_size seq_len time_fraction min_pitch max_pitch
      learning_rate hidden_dim ts ns ns.channel generative_model discriminative_model
      gans_value_function)
  | some ns =>
    match pySet (midi_df_list.map (fun df => PyVal.series df.program)) with
    | .error e => .error e
    | .ok s =>
      .ok (initRest oracles midi_df_list batch_size seq_len time_fraction min_pitch max_pitch
        learning_rate hidden_dim ts ns s.length generative_model discriminative_model
        gans_value_function)

/-- `AAEComposer.learn(iter_n, k_step)`. -/
def AAEComposer.learn (c : AAEComposer) (iter_n k_step : ℕ) : AAEComposer :=
  let p := c.GAN.train c.true_sampler c.generative_model c.discriminative_model iter_n k_step
  { c with generative_model := p.1, discriminative_model := p.2 }

/-- `AAEComposer.extract_logs()`: the returned tuple and the (unchanged) state
of the composer after the call. -/
def AAEComposer.extract_logs (c : AAEComposer) : (List ℚ × List ℚ × List ℚ) × AAEComposer :=
  (c.GAN.extract_logs_tuple, c)

/-- `self.__generative_model.draw()`: the drawn array and the generative model
after the call (one more draw consumed from the oracle stream). -/
def GenModelM.draw (g : GenModelM) : Arr4 × GenModelM :=
  (g.drawResults g.drawCount, { g with drawCount := g.drawCount + 1 })

/-- `AAEComposer.compose(file_path, ...)`: draws once from the stored
generative model, builds `generated_list` (velocity sampling is the oracle
stream `vel`; the `velocity_mean`/`velocity_std` defaults only parametrise the
external Gaussian sampler and are absorbed into it), post-processes the
DataFrame, and returns the note DataFrame handed to `MidiController.save`
together with the composer state after the call. -/
def AAEComposer.compose (c : AAEComposer) (vel : ℕ → ℤ) : List Note × AAEComposer :=
  let d := c.generative_model.draw
  let gen := generatedList c.time_fraction c.min_pitch c.noise_sampler.program_list vel d.1
  (postProcess gen, { c with generative_model := d.2 })

/-- Property getter `get_generative_model`. -/
def AAEComposer.get_generative_model (c : AAEComposer) : GenModelM := c.generative_model

/-- Property setter `set_readonly`, shared by the `generative_model` and
`true_sampler` properties: it raises before anything is assigned, so the
composer state is untouched (no state is carried by the result). -/
def AAEComposer.set_readonly (_c : AAEComposer) (_value : α) : Except PyErr Unit :=
  .error (.typeError "This property must be read-only.")

/-- Property getter `get_true_sampler`. -/
def AAEComposer.get_true_sampler (c : AAEComposer) : TrueSamplerM := c.true_sampler

/-- Assigning `composer.generative_model = value` invokes `set_readonly`. -/
def AAEComposer.setGenerativeModelProp (c : AAEComposer) (value : α) : Except PyErr Unit :=
  c.set_readonly value

/-- Assigning `composer.true_sampler = value` invokes `set_readonly`. -/
def AAEComposer.setTrueSamplerProp (c : AAEComposer) (value : α) : Except PyErr Unit :=
  c.set_readonly value

-- Name resolution of `test/nn_3_or_multi_layer_builder.py`.

/-- The names bound by the import statements at the top of the
`if __name__ == "__main__":` block of the script. -/
def nnScriptImportedNames : List String :=
  ["NN3LayerBuilder", "NNMultiLayerBuilder", "SigmoidFunction", "np", "random", "pd",
   "pprint", "make_classification", "train_test_split"]

/-- The names the script assigns at module level before or while using them. -/
def nnScriptAssignedNames : List String :=
  ["data_tuple", "data_tuple_x", "data_tuple_y", "traning_x", "test_x", "traning_y",
   "test_y", "traning_data_matrix", "class_data_list", "test_data_matrix",
   "test_class_data_list", "class_data_matrix", "test_class_data_matrix",
   "evaluate_data_list", "nn", "evaluate_result_dict", "evaluate_data", "data_columns"]

/-- The non-local names the script's statements reference (builtins aside,
these must resolve to an import or an earlier assignment). -/
def nnScriptReferencedNames : List String :=
  ["make_classification", "train_test_split", "NeuralNetwork", "NN3LayerBuilder",
   "SigmoidFunction", "NNMultiLayerBuilder", "pd", "len", "print"]

/-- The Python builtins the script touches. -/
def pythonBuiltinNames : List String := ["len", "print"]

instance (arr : Arr4) (d : ℕ) : Decidable (pitchDimLe arr d) := by
  unfold pitchDimLe
  infer_instance

-- Concrete inputs used by the witnesses.

/-- A concrete velocity oracle. -/
def velX : ℕ → ℤ := fun _ => 50

/-- A concrete drawn array: one batch, one program, two seq rows, two pitch cells. -/
def arrX : Arr4 := [[[[1, 0], [0, 1]]]]

/-- Concrete behaviour of the external collaborators. -/
def oX : ExternalOracles :=
  { barNoiseChannel := fun _ => 1,
    barNoiseProgramList := fun _ => [55],
    defaultGenDraw := fun _ => arrX,
    aaeTrain := fun _ g d _ _ => (g, d),
    aaeLogs := ([], [], []) }

/-- A concrete extracted MIDI DataFrame. -/
def dfX : MidiDF := { program := [55], velocity := [100] }

/-- A concrete caller-supplied true sampler. -/
def tsX : TrueSamplerM := TrueSamplerM.external 7

/-- A concrete caller-supplied noise sampler. -/
def nsX : NoiseSamplerM := NoiseSamplerM.external [55] 1 3

/-- A concrete caller-supplied generative model. -/
def gmX : GenModelM :=
  { noise_sampler := none, batch_size := 10, learning_rate := 1, channel := 1,
    drawCount := 0, drawResults := fun _ => arrX, tag := 5 }

/-- A concrete caller-supplied discriminative model. -/
def dmX : DiscModelM :=
  { batch_size := 10, hidden_dim := 336, channel := 1, learning_rate := 1, tag := 2 }

/-- The composer state `AAEComposer.init` produces from the concrete inputs
above (everything supplied, empty MIDI list). -/
def compX : AAEComposer :=
  { midi_df_list := [],
    noise_sampler := nsX,
    true_sampler := tsX,
    generative_model := { gmX with noise_sampler := some nsX },
    discriminative_model := dmX,
    GAN := { gans_value_function := GansValueFunctionM.miniMax, train := oX.aaeTrain,
             extract_logs_tuple := oX.aaeLogs },
    time_fraction := 1,
    min_pitch := 24,
    max_pitch := 108 }

-- Claim theorems.

/-- C1: `compose` draws from the stored generative model exactly once, and the
emitted `generated_list` contains one note tuple per drawn-array cell equal to
`1` (`generatedList = specGenList`, whose blocks map the `1`-cells one-to-one
to tuples with `pitch = pitch_index + min_pitch`), so, as long as the drawn
pitch axis is at most `max_pitch - min_pitch` cells long, every emitted pitch
lies in `[min_pitch, max_pitch)`. -/
theorem compose_draws_once_and_emits_marked_cells (c : AAEComposer) (vel : ℕ → ℤ)
    (hdim : pitchDimLe (c.generative_model.drawResults c.generative_model.drawCount)
      (c.max_pitch - c.min_pitch).toNat) :
    (c.compose vel).2.generative_model.drawCount = c.generative_model.drawCount + 1
    ∧ (c.compose vel).1 = postProcess (generatedList c.time_fraction c.min_pitch
        c.noise_sampler.program_list vel
        (c.generative_model.drawResults c.generative_model.drawCount))
    ∧ generatedList c.time_fraction c.min_pitch c.noise_sampler.program_list vel
        (c.generative_model.drawResults c.generative_model.drawCount)
      = specGenList c.time_fraction c.min_pitch c.noise_sampler.program_list vel
        (c.generative_model.drawResults c.generative_model.drawCount)
    ∧ ∀ n ∈ generatedList c.time_fraction c.min_pitch c.noise_sampler.program_list vel
        (c.generative_model.drawResults c.generative_model.drawCount),
        c.min_pitch ≤ n.pitch ∧ n.pitch < c.max_pitch :=
  ⟨rfl, rfl, generatedList_eq_specGenList _ _ _ _ _, generatedList_pitch_range hdim⟩

/-- Witness for C1 at the concrete composer `compX`. -/
theorem compose_draws_once_and_emits_marked_cells_witness :
    pitchDimLe (compX.generative_model.drawResults compX.generative_model.drawCount)
      (compX.max_pitch - compX.min_pitch).toNat
    ∧ ((compX.compose velX).2.generative_model.drawCount = compX.generative_model.drawCount + 1
      ∧ (compX.compose velX).1 = postProcess (generatedList compX.time_fraction compX.min_pitch
          compX.noise_sampler.program_list velX
          (compX.generative_model.drawResults compX.generative_model.drawCount))
      ∧ generatedList compX.time_fraction compX.min_pitch compX.noise_sampler.program_list velX
          (compX.generative_model.drawResults compX.generative_model.drawCount)
        = specGenList compX.time_fraction compX.min_pitch compX.noise_sampler.program_list velX
          (compX.generative_model.drawResults compX.generative_model.drawCount)
      ∧ ∀ n ∈ generatedList compX.time_fraction compX.min_pitch
          compX.noise_sampler.program_list velX
          (compX.generative_model.drawResults compX.generative_model.drawCount),
          compX.min_pitch ≤ n.pitch ∧ n.pitch < compX.max_pitch) :=
  ⟨by decide, compose_draws_once_and_emits_marked_cells compX velX (by decide)⟩

/-- C2: before saving, notes are grouped by pitch (first-occurrence order);
within each pitch group the notes are sorted by `(start, end)`, a note whose
`end` equals the immediately following note's `start` has its `end` extended to
that note's `end`, duplicate `end` values are dropped, and the concatenated
DataFrame handed to `MidiController.save` is sorted by `(start, end)`: the
pandas pipeline (`postProcess`) equals its direct description
(`specPostProcess`) and its result is sorted, and `compose` passes exactly
`postProcess` of the emitted list to `save`. -/
theorem compose_postprocess_spec (l : List Note) :
    postProcess l = specPostProcess l
    ∧ List.Sorted noteLe (postProcess l)
    ∧ ∀ (c : AAEComposer) (vel : ℕ → ℤ),
        (c.compose vel).1 = postProcess (generatedList c.time_fraction c.min_pitch
          c.noise_sampler.program_list vel
          (c.generative_model.drawResults c.generative_model.drawCount)) :=
  ⟨postProcess_eq_specPostProcess l, postProcess_sorted l, fun _ _ => rfl⟩

/-- C3: `learn` only calls `GAN.train` on the stored collaborators and stores
the returned generative/discriminative pair; every other field of the composer
is unchanged. -/
theorem learn_delegates_and_frames (c : AAEComposer) (iter_n k_step : ℕ) :
    (c.learn iter_n k_step).generative_model
      = (c.GAN.train c.true_sampler c.generative_model c.discriminative_model iter_n k_step).1
    ∧ (c.learn iter_n k_step).discriminative_model
      = (c.GAN.train c.true_sampler c.generative_model c.discriminative_model iter_n k_step).2
    ∧ (c.learn iter_n k_step).true_sampler = c.true_sampler
    ∧ (c.learn iter_n k_step).noise_sampler = c.noise_sampler
    ∧ (c.learn iter_n k_step).GAN = c.GAN
    ∧ (c.learn iter_n k_step).time_fraction = c.time_fraction
    ∧ (c.learn iter_n k_step).min_pitch = c.min_pitch
    ∧ (c.learn iter_n k_step).max_pitch = c.max_pitch
    ∧ (c.learn iter_n k_step).midi_df_list = c.midi_df_list :=
  ⟨rfl, rfl, rfl, rfl, rfl, rfl, rfl, rfl, rfl⟩

/-- C4 (failing branch): with a caller-supplied noise sampler and a non-empty
MIDI list, `__init__` evaluates `set(program_list)` over pandas Series columns
and raises `TypeError` instead of computing the distinct-program count. -/
theorem init_supplied_noise_sampler_raises :
    AAEComposer.init oX [dfX] 10 4 1 24 108 1 none none (some nsX) none none none
      = Except.error (PyErr.typeError "Series objects are mutable, thus they cannot be hashed") := by
  rfl

/-- C6: every note of one `(batch, program_key)` block carries the block's own
`start` and `end` (the `seq` index never enters them), and the block at flat
position `k` (the number of blocks processed before it) has
`start = time_fraction * k`, `end = start + time_fraction`. -/
theorem compose_block_times (tf : ℚ) (minp : ℤ) (progs : List ℤ) (vel : ℕ → ℤ) (arr : Arr4) :
    generatedList tf minp progs vel arr = specGenList tf minp progs vel arr
    ∧ (∀ (prog : ℤ) (s e : ℚ) (c : ℕ) (key : List KeyRow),
        ∀ n ∈ emitNotes prog s e minp vel key c, n.start = s ∧ n.end_ = e)
    ∧ (∀ (blocks : List (ℕ × Mat)) (k c : ℕ),
        ∀ n ∈ specGo progs minp tf vel blocks k c,
          ∃ j, k ≤ j ∧ n.start = tf * j ∧ n.end_ = tf * j + tf) := by
  refine ⟨generatedList_eq_specGenList tf minp progs vel arr, ?_, ?_⟩
  · intro prog s e c key n hn
    rcases emitNotes_mem hn with ⟨h1, h2, _⟩
    exact ⟨h1, h2⟩
  · intro blocks k c n hn
    rcases specGo_mem hn with ⟨j, hj, h1, h2, _⟩
    exact ⟨j, hj, h1, h2⟩

/-- C7 (failing): the script references the global name `NeuralNetwork`, which
is neither imported, nor assigned, nor a builtin, so running it as `__main__`
raises `NameError` instead of completing the demonstration. -/
theorem nn_script_neuralnetwork_unresolvable :
    "NeuralNetwork" ∈ nnScriptReferencedNames
    ∧ "NeuralNetwork" ∉ nnScriptImportedNames
    ∧ "NeuralNetwork" ∉ nnScriptAssignedNames
    ∧ "NeuralNetwork" ∉ pythonBuiltinNames := by
  decide

/-- C8: assigning either read-only property raises `TypeError` (before any
state could change: the setter body is a bare `raise`), and the getters return
the stored generative model and true sampler. -/
theorem readonly_properties {α β : Type} (c : AAEComposer) (v : α) (w : β) :
    c.setGenerativeModelProp v = Except.error (PyErr.typeError "This property must be read-only.")
    ∧ c.setTrueSamplerProp w = Except.error (PyErr.typeError "This property must be read-only.")
    ∧ c.get_generative_model = c.generative_model
    ∧ c.get_true_sampler = c.true_sampler :=
  ⟨rfl, rfl, rfl, rfl⟩

/-- C10: `extract_logs` returns exactly `extract_logs_tuple()` of the stored
GAN object and leaves the composer state unchanged. -/
theorem extract_logs_delegates (c : AAEComposer) :
    (c.extract_logs).1 = c.GAN.extract_logs_tuple ∧ (c.extract_logs).2 = c :=
  ⟨rfl, rfl⟩

/-- C5: when `true_sampler` is `None`, `__init__` builds a `BarTrueSampler`
from the extracted MIDI DataFrames with the given arguments and
`conditional_flag=False`; a supplied sampler is stored unchanged; the
`true_sampler` property returns the stored sampler. -/
theorem init_true_sampler_wiring (oracles : ExternalOracles) (midi : List MidiDF)
    (bs sl : ℕ) (tf : ℚ) (minp maxp : ℤ) (lr : ℚ) (hd : Option ℤ)
    (ts : Option TrueSamplerM) (ns : Option NoiseSamplerM) (gm : Option GenModelM)
    (dm : Option DiscModelM) (gvf : Option GansValueFunctionM) (comp : AAEComposer)
    (h : AAEComposer.init oracles midi bs sl tf minp maxp lr hd ts ns gm dm gvf
      = Except.ok comp) :
    comp.true_sampler
      = (match ts with
        | none => TrueSamplerM.bar
            { midi_df_list := midi, batch_size := bs, seq_len := sl, time_fraction := tf,
              min_pitch := minp, max_pitch := maxp, conditional_flag := false }
        | some t => t)
    ∧ comp.get_true_sampler = comp.true_sampler := by
  refine ⟨?_, rfl⟩
  cases ns with
  | none =>
    simp only [AAEComposer.init] at h
    injection h with h
    subst h
    cases ts <;> rfl
  | some n0 =>
    simp only [AAEComposer.init] at h
    cases hps : pySet (midi.map fun df => PyVal.series df.program) with
    | error e =>
      rw [hps] at h
      simp at h
    | ok s =>
      rw [hps] at h
      injection h with h
      subst h
      cases ts <;> rfl

/-- Witness for C5 with everything supplied (empty MIDI list, so the
noise-sampler branch succeeds). -/
theorem init_true_sampler_wiring_witness :
    compX.true_sampler
      = (match (some tsX : Option TrueSamplerM) with
        | none => TrueSamplerM.bar
            { midi_df_list := [], batch_size := 10, seq_len := 4, time_fraction := 1,
              min_pitch := 24, max_pitch := 108, conditional_flag := false }
        | some t => t)
    ∧ compX.get_true_sampler = compX.true_sampler :=
  init_true_sampler_wiring oX [] 10 4 1 24 108 1 none (some tsX) (some nsX) (some gmX)
    (some dmX) (some GansValueFunctionM.miniMax) compX rfl

/-- C9: `__init__` always overwrites the `noise_sampler` attribute of the
generative model with the composer's noise sampler (the default
`BarNoiseSampler` when `noise_sampler` is `None`), including when the caller
supplies the generative model, which is thereby mutated. -/
theorem init_overwrites_generative_model_noise_sampler (oracles : ExternalOracles)
    (midi : List MidiDF) (bs sl : ℕ) (tf : ℚ) (minp maxp : ℤ) (lr : ℚ) (hd : Option ℤ)
    (ts : Option TrueSamplerM) (ns : Option NoiseSamplerM) (gm : Option GenModelM)
    (dm : Option DiscModelM) (gvf : Option GansValueFunctionM) (comp : AAEComposer)
    (h : AAEComposer.init oracles midi bs sl tf minp maxp lr hd ts ns gm dm gvf
      = Except.ok comp) :
    comp.generative_model.noise_sampler = some comp.noise_sampler
    ∧ (ns = none → comp.noise_sampler = NoiseSamplerM.bar
        { midi_df_list := midi, batch_size := bs, seq_len := sl, time_fraction := tf,
          min_pitch := minp, max_pitch := maxp,
          channel := oracles.barNoiseChannel midi,
          program_list := oracles.barNoiseProgramList midi })
    ∧ (∀ n0, ns = some n0 → comp.noise_sampler = n0)
    ∧ (∀ g, gm = some g →
        comp.generative_model = { g with noise_sampler := some comp.noise_sampler }) := by
  cases ns with
  | none =>
    simp only [AAEComposer.init] at h
    injection h with h
    subst h
    refine ⟨rfl, fun _ => rfl, fun n0 hn0 => Option.noConfusion hn0, fun g hg => ?_⟩
    subst hg
    rfl
  | some n0 =>
    simp only [AAEComposer.init] at h
    cases hps : pySet (midi.map fun df => PyVal.series df.program) with
    | error e =>
      rw [hps] at h
      simp at h
    | ok s =>
      rw [hps] at h
      injection h with h
      subst h
      refine ⟨rfl, fun hcon => Option.noConfusion hcon, fun n1 hn1 => ?_, fun g hg => ?_⟩
      · cases hn1
        rfl
      · subst hg
        rfl

/-- Witness for C9 with a supplied generative model and noise sampler. -/
theorem init_overwrites_generative_model_noise_sampler_witness :
    compX.generative_model.noise_sampler = some compX.noise_sampler
    ∧ ((some nsX : Option NoiseSamplerM) = none → compX.noise_sampler = NoiseSamplerM.bar
        { midi_df_list := [], batch_size := 10, seq_len := 4, time_fraction := 1,
          min_pitch := 24, max_pitch := 108,
          channel := oX.barNoiseChannel [], program_list := oX.barNoiseProgramList [] })
    ∧ (∀ n0, (some nsX : Option NoiseSamplerM) = some n0 → compX.noise_sampler = n0)
    ∧ (∀ g, (some gmX : Option GenModelM) = some g →
        compX.generative_model = { g with noise_sampler := some compX.noise_sampler }) :=
  init_overwrites_generative_model_noise_sampler oX [] 10 4 1 24 108 1 none (some tsX)
    (some nsX) (some gmX) (some dmX) (some GansValueFunctionM.miniMax) compX rfl
